import Mathlib

set_option autoImplicit false

/-!
# `handle_connection` of `server_thread.c`

A shallow embedding of the request handler of the threaded file server, and the
properties of its wire behaviour, its request parse, its chunked transfer and its
statistics record.

Modelling conventions.

* A C `char` is a Lean `Char`; a buffer, a file or a C string is a `List Char`.
* Calls into the operating system and libc are answered by an environment `Env`:
  what `recv` delivers, what `fopen` finds, how many bytes each `send` accepts,
  what `asctime` renders, what `"%.4f"` renders for the elapsed time.
* A run of the handler yields the calls it made on the connection, on its streams and
  on the mutex, in order (`Event`), with the call that ends it, and the content of
  `stats_thread.txt` afterwards.
* `fread` on the opened file returns the next bytes of its content, a full array while
  that many are left.
* `int` is 32 bits and `off_t` 64 bits (LP64); `"%d"` applied to an `off_t`
  reads its low 32 bits as a signed `int`.
* The partial-write loop can spin for ever when the transport never accepts a
  byte, so the transfer takes a bound on loop iterations and returns `none`
  when the bound is hit.
-/

namespace ServerThread

/-! ## Characters and C strings -/

/-- The NUL character, which terminates a C string. -/
def NUL : Char := Char.ofNat 0

/-- C `isspace` in the "C" locale: space, `\t`, `\n`, `\v`, `\f`, `\r`. -/
def isspace (c : Char) : Bool :=
  c == ' ' || c == '\t' || c == '\n' || c == Char.ofNat 11 || c == Char.ofNat 12 || c == '\r'

/-- The C string found at the start of a memory image: the characters before
the first NUL. -/
def c_string (mem : List Char) : List Char :=
  mem.takeWhile (fun c => c != NUL)

/-! ## `sscanf` -/

/-- The directives of a `scanf` format that the handler uses: an ordinary
character, a white-space character, and the conversion `%s`. -/
inductive Directive where
  | lit (c : Char)
  | space
  | str
deriving DecidableEq

/-- The format string `"GET /%s"` of line 42. -/
def format_GET : List Directive :=
  [Directive.lit 'G', Directive.lit 'E', Directive.lit 'T', Directive.space,
   Directive.lit '/', Directive.str]

/-- The value `sscanf` returns when it stops on an input failure: `EOF` before the
first conversion, the number of conversions otherwise. -/
def input_failure (out : List (List Char)) : Int :=
  if out.isEmpty then -1 else out.length

/-- C `sscanf` on the C string `inp` for a list of directives; `out` holds the
strings converted so far. Returns the return value of `sscanf` and the converted
strings.

* an ordinary character must be the next input character;
* a white-space directive skips any run of white space, also an empty one;
* `%s` skips leading white space and then takes the longest run of characters
  that are not white space; it fails when that run is empty. -/
def sscanf : List Directive → List Char → List (List Char) → Int × List (List Char)
  | [], _, out => (out.length, out)
  | Directive.lit c :: ds, inp, out =>
    match inp with
    | [] => (input_failure out, out)
    | x :: xs => if x = c then sscanf ds xs out else (out.length, out)
  | Directive.space :: ds, inp, out => sscanf ds (inp.dropWhile isspace) out
  | Directive.str :: ds, inp, out =>
    let inp1 := inp.dropWhile isspace
    let tok := inp1.takeWhile (fun c => !isspace c)
    if tok.isEmpty then (input_failure out, out)
    else sscanf ds (inp1.dropWhile (fun c => !isspace c)) (out ++ [tok])

/-! ## `printf` conversions -/

/-- The decimal digits of a natural number. -/
def decimal (n : Nat) : List Char := Nat.toDigits 10 n

/-- The value a 32-bit `int` takes from the low 32 bits of `v`. -/
def int32 (v : Int) : Int := (v + 2147483648) % 4294967296 - 2147483648

/-- The conversion `"%d"` applied to the argument `v`: the argument is read as a 32-bit
`int`. -/
def printf_d (v : Int) : List Char :=
  let w := int32 v
  if w < 0 then '-' :: decimal w.natAbs else decimal w.toNat

/-! ## The calls a handler makes -/

/-- The `FILE *` streams of the handler. -/
inductive Stream where
  | f
  | statfd
  | stderr
deriving DecidableEq

/-- One call made by `handle_connection`, with what it was given and what it returned. -/
inductive Event where
  /-- A call `recv(client_socket, buffer, sizeof(buffer), 0)` and its return value. -/
  | recv (ret : Int)
  /-- A call `send(client_socket, p + off, len, 0)`, where `p` is the local array in
  use, `data` the `len` characters found there, and `ret` the return value. -/
  | send (off len : Int) (data : List Char) (ret : Int)
  /-- A call `close(client_socket)`. -/
  | close_socket
  /-- A call `fopen(name, mode)` assigned to the stream; `ok` is false for `NULL`. -/
  | fopen (s : Stream) (name mode : List Char) (ok : Bool)
  /-- A call `fstat(fileno(f), &file_stats)`. -/
  | fstat
  /-- A call `fread(response, 1, sizeof(response), f)` and its return value. -/
  | fread (ret : Nat)
  /-- A call `fprintf` on the stream, with the text it writes. -/
  | fprintf (s : Stream) (text : List Char)
  /-- A call `fclose` on the stream. -/
  | fclose (s : Stream)
  /-- A call `pthread_mutex_lock(&mutex)`. -/
  | lock
  /-- A call `pthread_mutex_unlock(&mutex)`. -/
  | unlock
  /-- A call `perror`. -/
  | perror
  /-- A call `pthread_exit(NULL)`. -/
  | thread_exit
  /-- A call `exit(EXIT_FAILURE)`. -/
  | process_exit
deriving DecidableEq

/-- What a finished run of the handler leaves behind: the calls it made, in order, and
the content of `stats_thread.txt`. -/
structure Outcome where
  trace : List Event
  stats : List Char
deriving DecidableEq

/-- The answers of the operating system and libc to one run of the handler. -/
structure Env where
  /-- The bytes available to the first `recv`; `none` when that `recv` fails (-1). -/
  request : Option (List Char)
  /-- The memory that follows the received bytes: `buffer` is never cleared (the
  `memset` calls of lines 33-34 pass a length of 0), so this is whatever the stack held. -/
  buffer_rest : List Char
  /-- The return values of the later `recv` calls, in order; once the list is used up
  the peer has nothing more and `recv` returns 0. -/
  recvs : List Int
  /-- The files `fopen(name, "rb")` can open, with their content. -/
  fs : List Char → Option (List Char)
  /-- The return value of the `k`-th `send` of the run (from 0) when asked for `len`
  bytes. -/
  transport : Nat → Nat → Int
  /-- The calendar text `asctime(gmtime(&now))` renders, without the line break
  that `asctime` appends. -/
  calendar : List Char
  /-- The value `file_stats.st_size` holds before any `fstat` (it is not initialised). -/
  st_size_stack : Int
  /-- The text `"%.4f"` renders for `e_time`. -/
  e_time_text : List Char
  /-- Whether `fopen("stats_thread.txt", "w")` succeeds. -/
  stats_open : Bool

/-! ## The handler -/

/-- The bytes the first `recv` stores in `buffer`: at most `sizeof(buffer)`. -/
def received (env : Env) : List Char :=
  match env.request with
  | none => []
  | some bs => bs.take 1024

/-- The return value `amt` of the first `recv` (line 38). -/
def amt (env : Env) : Int :=
  match env.request with
  | none => -1
  | some bs => ((bs.take 1024).length : Nat)

/-- The C string `sscanf` reads at `buffer` (line 42). -/
def buffer (env : Env) : List Char :=
  c_string (received env ++ env.buffer_rest)

/-- The drain loop of lines 55-56: `recv` until one returns something other than
`sizeof(buffer)`. -/
def drain : List Int → List Event
  | [] => [Event.recv 0]
  | r :: rs => if r = 1024 then Event.recv r :: drain rs else [Event.recv r]

/-- The `len` characters at `response + off`. Inside the array this is the exact
range; a negative `off` leaves the array and the range is read from its start. -/
def slice (response : List Char) (off len : Int) : List Char :=
  (response.drop off.toNat).take len.toNat

/-- The loop of lines 117-120: `while (sent < bytes_read) sent += send(...)`.
`k` counts the `send` calls of the run. Returns the count afterwards and the calls
made, or `none` when the loop is still running after `fuel` iterations. -/
def send_rest (transport : Nat → Nat → Int) (response : List Char) (bytes_read : Int) :
    Nat → Nat → Int → Option (Nat × List Event)
  | 0, k, sent => if sent < bytes_read then none else some (k, [])
  | fuel + 1, k, sent =>
    if sent < bytes_read then
      let len := bytes_read - sent
      let r := transport k len.toNat
      match send_rest transport response bytes_read fuel (k + 1) (sent + r) with
      | none => none
      | some (k1, evs) => some (k1, Event.send sent len (slice response sent len) r :: evs)
    else some (k, [])

/-- The block of lines 110-121: when something was read, send it, and keep sending
until all of it is sent. -/
def send_chunk (transport : Nat → Nat → Int) (fuel k : Nat) (response : List Char)
    (bytes_read : Int) : Option (Nat × List Event) :=
  if bytes_read > 0 then
    let sent := transport k bytes_read.toNat
    match send_rest transport response bytes_read fuel (k + 1) sent with
    | none => none
    | some (k1, evs) =>
      some (k1, Event.send 0 bytes_read (slice response 0 bytes_read) sent :: evs)
  else some (k, [])

/-- The `do ... while` loop of lines 100-122 on the unread part `rest` of the file:
read up to `sizeof(response)` bytes, send them, and go on while a full array was read.
`fuel` bounds each partial-write loop, the first `Nat` argument the number of reads. -/
def transfer (transport : Nat → Nat → Int) (fuel : Nat) :
    Nat → List Char → Nat → Option (Nat × List Event)
  | 0, _, _ => none
  | n + 1, rest, k =>
    let response := rest.take 1024
    let bytes_read : Int := (response.length : Nat)
    match send_chunk transport fuel k response bytes_read with
    | none => none
    | some (k1, evs1) =>
      if bytes_read > 0 ∧ bytes_read = 1024 then
        match transfer transport fuel n (rest.drop 1024) k1 with
        | none => none
        | some (k2, evs2) => some (k2, Event.fread response.length :: (evs1 ++ evs2))
      else some (k1, Event.fread response.length :: evs1)

/-- A `send(client_socket, response, strlen(response), 0)` of a whole string, as the
`k`-th `send` of the run. -/
def send_string (env : Env) (k : Nat) (s : List Char) : Event :=
  Event.send 0 (s.length : Nat) s (env.transport k s.length)

/-- The reply of line 64. -/
def not_found : List Char := "HTTP/1.1 404 Not Found (open)\n\n".toList

/-- The five header writes of lines 72-95 for a file whose `st_size` is `st_size`,
with the `fstat` between them. -/
def headers (env : Env) (st_size : Int) : List Event :=
  [send_string env 0 "HTTP/1.1 200 OK\n".toList,
   send_string env 1 ("Date: ".toList ++ (env.calendar ++ ['\n'])),
   Event.fstat,
   send_string env 2 ("Content-Length: ".toList ++ printf_d st_size ++ ['\n']),
   send_string env 3 "Connection: close\n".toList,
   send_string env 4 "Content-Type: text/html\n\n".toList]

/-- The text of line 149: `"%s\t%d\t%.4f"` of the filename, `file_stats.st_size` and
`e_time`. -/
def stats_text (env : Env) (filename : List Char) (st_size : Int) : List Char :=
  filename ++ ['\t'] ++ printf_d st_size ++ ['\t'] ++ env.e_time_text

/-- Lines 137-158: the calls that record the statistics under the mutex; `text` is what
line 149 writes. When the file cannot be opened the process exits. -/
def stats_calls (env : Env) (text : List Char) : List Event :=
  if env.stats_open then
    [Event.lock, Event.fopen Stream.statfd "stats_thread.txt".toList "w".toList true,
     Event.fprintf Stream.statfd text, Event.fclose Stream.statfd, Event.unlock,
     Event.thread_exit]
  else
    [Event.lock, Event.fopen Stream.statfd "stats_thread.txt".toList "w".toList false,
     Event.perror, Event.process_exit]

/-- The content of `stats_thread.txt` after lines 137-158, from its content `stats`
before: opening it with `"w"` empties it, and `fprintf` appends `text`. -/
def stats_after (env : Env) (text stats : List Char) : List Char :=
  if env.stats_open then
    let emptied : List Char := []
    emptied ++ text
  else stats

/-- Lines 129-158: close the connection, then record the statistics. `t` holds the
calls made so far and `stats` the content of `stats_thread.txt`. -/
def finish (env : Env) (filename : List Char) (st_size : Int) (stats : List Char)
    (t : List Event) : Outcome :=
  { trace := t ++ Event.close_socket :: stats_calls env (stats_text env filename st_size),
    stats := stats_after env (stats_text env filename st_size) stats }

/-- The result of `sscanf(buffer, "GET /%s", filename)` (line 42): its return value
and the strings it converted. -/
def parsed (env : Env) : Int × List (List Char) :=
  sscanf format_GET (buffer env) []

/-- The content of `filename` after a successful parse. The array holds 1024 bytes; a
token that does not fit overruns it, which the model does not represent. -/
def filename (env : Env) : List Char :=
  (parsed env).2.headD []

/-- The value of `file_stats.st_size` at line 149: what `fstat` stored when the file
opened, what the stack held otherwise. -/
def st_size (env : Env) : Int :=
  match env.fs (filename env) with
  | none => env.st_size_stack
  | some file => (file.length : Nat)

/-- The calls up to the `fopen` of line 61: the first `recv` and, when it filled the
buffer, the drain loop (lines 53-57). -/
def start (env : Env) : List Event :=
  Event.recv (amt env) :: (if amt env = 1024 then drain env.recvs else [])

/-- The calls of lines 38-65 when `fopen` fails: the one reply of line 65. -/
def not_found_calls (env : Env) : List Event :=
  start env ++ [Event.fopen Stream.f (filename env) "rb".toList false,
                send_string env 0 not_found]

/-- The calls of lines 38-125 when `fopen` returns the file `file`: the headers, the
diagnostic of line 97, the calls `body` of the transfer loop, and `fclose(f)`. -/
def serve_calls (env : Env) (file : List Char) (body : List Event) : List Event :=
  start env ++ [Event.fopen Stream.f (filename env) "rb".toList true]
    ++ headers env (file.length : Nat)
    ++ [Event.fprintf Stream.stderr ("File: ".toList ++ filename env ++ ['\n'])]
    ++ body ++ [Event.fclose Stream.f]

/-- The calls of lines 38-46 when the parse fails. -/
def bad_request_calls (env : Env) : List Event :=
  [Event.recv (amt env), Event.fprintf Stream.stderr "Bad HTTP request\n".toList,
   Event.close_socket, Event.thread_exit]

/-- The function `handle_connection` (lines 18-159) for one connection. `stats` is the
content of `stats_thread.txt` before the run; the result is `none` when a loop is
still running after `fuel` iterations. -/
def handle_connection (fuel : Nat) (env : Env) (stats : List Char) : Option Outcome :=
  if (parsed env).1 < 1 then
    some { trace := bad_request_calls env, stats := stats }
  else
    match env.fs (filename env) with
    | none =>
      some (finish env (filename env) env.st_size_stack stats (not_found_calls env))
    | some file =>
      match transfer env.transport fuel fuel file 5 with
      | none => none
      | some (_, body) =>
        some (finish env (filename env) (file.length : Nat) stats (serve_calls env file body))

/-- Requests served one after another by the same process, each run starting from the
statistics file the previous one left; a run that ends in `exit` ends the process. -/
def serve_all (fuel : Nat) : List Env → List Char → Option (List Char)
  | [], stats => some stats
  | env :: rest, stats =>
    match handle_connection fuel env stats with
    | none => none
    | some out =>
      if Event.process_exit ∈ out.trace then some out.stats
      else serve_all fuel rest out.stats

/-! ## Reading a trace -/

/-- The buffers handed to `send`, in order. -/
def sent_buffers : List Event → List (List Char)
  | [] => []
  | Event.send _ _ data _ :: t => data :: sent_buffers t
  | _ :: t => sent_buffers t

/-- The bytes the transport accepted, in order: of each `send`, as many bytes of its
buffer as it returned. -/
def accepted : List Event → List Char
  | [] => []
  | Event.send _ _ data ret :: t => data.take ret.toNat ++ accepted t
  | _ :: t => accepted t

/-- The sum of the return values of the `send` calls. -/
def total_sent : List Event → Int
  | [] => 0
  | Event.send _ _ _ ret :: t => ret + total_sent t
  | _ :: t => total_sent t

/-- The return values of the `fread` calls, in order. -/
def fread_results : List Event → List Nat
  | [] => []
  | Event.fread ret :: t => ret :: fread_results t
  | _ :: t => fread_results t

/-- The names handed to `fopen` for the stream `f`, in order. -/
def opened_names : List Event → List (List Char)
  | [] => []
  | Event.fopen Stream.f name _ _ :: t => name :: opened_names t
  | _ :: t => opened_names t

/-- Whether the list is a run of `send` calls on an `n`-byte chunk in which each call
starts at the offset `sent` reached so far and asks for the `n - sent` bytes left. -/
def resumes (n : Int) : Int → List Event → Bool
  | _, [] => true
  | sent, Event.send off len _ ret :: t =>
    decide (off = sent) && decide (len = n - sent) && resumes n (sent + ret) t
  | _, _ :: _ => false

/-- Whether the call is a `recv` or a `send` on the connection. -/
def uses_socket : Event → Bool
  | Event.recv _ => true
  | Event.send _ _ _ _ => true
  | _ => false

/-- Whether the call belongs to the file transfer: an `fread` or a `send`. -/
def is_transfer : Event → Bool
  | Event.fread _ => true
  | Event.send _ _ _ _ => true
  | _ => false

/-- The calls made before the first `close(client_socket)`. -/
def before_close (t : List Event) : List Event :=
  t.takeWhile (fun e => e != Event.close_socket)

/-- The calls made after the first `close(client_socket)`. -/
def after_close (t : List Event) : List Event :=
  (t.dropWhile (fun e => e != Event.close_socket)).drop 1

/-- The streams that are open after the calls of the list, starting from the streams
`opened`: a successful `fopen` opens its stream, `fclose` closes it. -/
def left_open : List Event → List Stream → List Stream
  | [], opened => opened
  | Event.fopen s _ _ true :: t, opened => left_open t (s :: opened)
  | Event.fclose s :: t, opened => left_open t (opened.erase s)
  | _ :: t, opened => left_open t opened

/-! ## The grammars of the request line -/

/-- The first line of a buffer: the characters before the first line feed. -/
def first_line (buf : List Char) : List Char :=
  buf.takeWhile (fun c => c != '\n')

/-- The grammar as the specification words it: the literal `GET`, one space, `/`, then
a non-empty run of characters that are not white space. -/
def exact_grammar (line : List Char) : Prop :=
  ∃ tok rest, line = "GET /".toList ++ tok ++ rest ∧ tok ≠ [] ∧ ∀ c ∈ tok, isspace c = false

/-- The grammar `sscanf` applies with `"GET /%s"`: `GET`, any run of white space, `/`,
any run of white space, then a non-empty run of characters that are not white space. -/
def scanf_grammar (s : List Char) : Prop :=
  ∃ w1 w2 tok rest, s = "GET".toList ++ w1 ++ ['/'] ++ w2 ++ tok ++ rest ∧
    (∀ c ∈ w1, isspace c = true) ∧ (∀ c ∈ w2, isspace c = true) ∧
    tok ≠ [] ∧ ∀ c ∈ tok, isspace c = false

/-! ## Sample environments -/

/-- An environment for the request `req`, with the files `fs`, a transport that accepts
every buffer whole, an empty stack and a statistics file that opens. -/
def sample (req : List Char) (fs : List Char → Option (List Char)) : Env where
  request := some req
  buffer_rest := []
  recvs := []
  fs := fs
  transport := fun _ len => (len : Int)
  calendar := "Thu Jan  1 00:00:00 1970".toList
  st_size_stack := 0
  e_time_text := "0.0001".toList
  stats_open := true

/-- A document root that holds `index.html` with the content `hello`. -/
def hello_root (name : List Char) : Option (List Char) :=
  if name = "index.html".toList then some "hello".toList else none

/-- The request `GET /index.html` for a five-byte file. -/
def env_index : Env := sample "GET /index.html HTTP/1.1\r\n\r\n".toList hello_root

/-- The request `GET /missing.txt` for a file that does not exist. -/
def env_missing : Env := sample "GET /missing.txt HTTP/1.1\r\n\r\n".toList hello_root

/-- A request that is not a `GET`. -/
def env_post : Env := sample "POST /index.html HTTP/1.1\r\n\r\n".toList hello_root


/-- A request line without the space between `GET` and `/`. -/
def env_no_space : Env := sample "GET/x HTTP/1.1\r\n\r\n".toList hello_root

/-- A request line whose path is empty: `GET /` is followed by a space. -/
def env_empty_token : Env := sample "GET / HTTP/1.1\r\n\r\n".toList hello_root

/-- A request whose first line is `GET /` and ends there. -/
def env_line_break : Env := sample "GET /\r\nHost: a\r\n\r\n".toList hello_root

/-- A request whose method is in lower case. -/
def env_lowercase : Env := sample "get /index.html HTTP/1.1\r\n\r\n".toList hello_root

/-- A request whose path holds a NUL character between `a` and `b`. -/
def env_nul : Env :=
  sample ("GET /".toList ++ ['a', NUL, 'b'] ++ ' ' :: "HTTP/1.1\r\n\r\n".toList) hello_root

/-- A transport that accepts at most two bytes of each `send`. -/
def short_writes : Nat → Nat → Int :=
  fun _ len => if 2 < len then 2 else (len : Int)

/-- A document root that holds `big.bin`, a file of 2147483648 bytes (2 GiB). -/
def big_root (name : List Char) : Option (List Char) :=
  if name = "big.bin".toList then some (List.replicate 2147483648 'a') else none

/-- The request `GET /big.bin` for a file of 2 GiB. -/
def env_two_gib : Env := sample "GET /big.bin HTTP/1.1\r\n\r\n".toList big_root

/-- The request `GET /index.html` when `stats_thread.txt` cannot be opened for writing. -/
def env_stats_closed : Env :=
  { env_index with stats_open := false }

/-- The run of the handler on `env_index`: one read of five bytes, one chunk. -/
def out_index : Outcome :=
  finish env_index "index.html".toList 5 []
    (serve_calls env_index "hello".toList
      [Event.fread 5, Event.send 0 5 "hello".toList 5])

/-! ## Facts about traces, the parse and the loops -/

theorem sent_buffers_append (a b : List Event) :
    sent_buffers (a ++ b) = sent_buffers a ++ sent_buffers b := by
  induction a with
  | nil => rfl
  | cons e a ih => cases e <;> simp [sent_buffers, ih]

theorem accepted_append (a b : List Event) : accepted (a ++ b) = accepted a ++ accepted b := by
  induction a with
  | nil => rfl
  | cons e a ih => cases e <;> simp [accepted, ih]

theorem total_sent_append (a b : List Event) :
    total_sent (a ++ b) = total_sent a + total_sent b := by
  induction a with
  | nil => simp [total_sent]
  | cons e a ih => cases e <;> simp [total_sent, ih, add_assoc]

theorem fread_results_append (a b : List Event) :
    fread_results (a ++ b) = fread_results a ++ fread_results b := by
  induction a with
  | nil => rfl
  | cons e a ih => cases e <;> simp [fread_results, ih]

theorem opened_names_append (a b : List Event) :
    opened_names (a ++ b) = opened_names a ++ opened_names b := by
  induction a with
  | nil => rfl
  | cons e a ih =>
    cases e with
    | fopen s name mode ok => cases s <;> simp [opened_names, ih]
    | _ => simp [opened_names, ih]

theorem left_open_append (a b : List Event) (o : List Stream) :
    left_open (a ++ b) o = left_open b (left_open a o) := by
  induction a generalizing o with
  | nil => rfl
  | cons e a ih =>
    cases e with
    | fopen s name mode ok => cases ok <;> simp [left_open, ih]
    | _ => simp [left_open, ih]

/-- A list of calls that only move data: `recv`, `send` and `fread`. -/
theorem data_calls (l : List Event)
    (h : ∀ e ∈ l, (uses_socket e || is_transfer e) = true) :
    l.count Event.close_socket = 0 ∧ l.count (Event.fclose Stream.f) = 0 ∧
    opened_names l = [] ∧ (∀ o, left_open l o = o) ∧
    (∀ t, before_close (l ++ t) = l ++ before_close t) ∧
    (∀ t, after_close (l ++ t) = after_close t) := by
  induction l with
  | nil => simp [opened_names, left_open, before_close, after_close]
  | cons e l ih =>
    have he := h e (List.mem_cons_self _ _)
    obtain ⟨h1, h2, h3, h4, h5, h6⟩ := ih (fun x hx => h x (List.mem_cons_of_mem _ hx))
    simp only [before_close, after_close] at h5 h6 ⊢
    cases e <;>
      simp_all [uses_socket, is_transfer, opened_names, left_open, List.count_cons]

theorem drain_recv (rs : List Int) : ∀ e ∈ drain rs, ∃ r, e = Event.recv r := by
  induction rs with
  | nil => intro e he; simp [drain] at he; exact ⟨0, he⟩
  | cons r rs ih =>
    intro e he
    unfold drain at he
    split at he
    · rcases List.mem_cons.1 he with h | h
      · exact ⟨r, h⟩
      · exact ih e h
    · simp at he; exact ⟨r, he⟩

theorem start_recv (env : Env) : ∀ e ∈ start env, ∃ r, e = Event.recv r := by
  intro e he
  unfold start at he
  rcases List.mem_cons.1 he with h | h
  · exact ⟨_, h⟩
  · split at h
    · exact drain_recv _ e h
    · simp at h

/-- A list of `recv` calls sends nothing and reads nothing from the file. -/
theorem recv_calls (l : List Event) (h : ∀ e ∈ l, ∃ r, e = Event.recv r) :
    sent_buffers l = [] ∧ accepted l = [] ∧ fread_results l = [] ∧
    (∀ e ∈ l, (uses_socket e || is_transfer e) = true) := by
  induction l with
  | nil => simp [sent_buffers, accepted, fread_results]
  | cons e l ih =>
    obtain ⟨r, rfl⟩ := h e (List.mem_cons_self _ _)
    obtain ⟨h1, h2, h3, h4⟩ := ih (fun x hx => h x (List.mem_cons_of_mem _ hx))
    refine ⟨by simp [sent_buffers, h1], by simp [accepted, h2], by simp [fread_results, h3],
      ?_⟩
    intro e he
    rcases List.mem_cons.1 he with rfl | he
    · rfl
    · exact h4 e he

theorem sent_buffers_start (env : Env) : sent_buffers (start env) = [] :=
  (recv_calls _ (start_recv env)).1

theorem accepted_start (env : Env) : accepted (start env) = [] :=
  (recv_calls _ (start_recv env)).2.1

theorem fread_results_start (env : Env) : fread_results (start env) = [] :=
  (recv_calls _ (start_recv env)).2.2.1

theorem start_data (env : Env) : ∀ e ∈ start env, (uses_socket e || is_transfer e) = true :=
  (recv_calls _ (start_recv env)).2.2.2

/-- The calls that record the statistics touch neither the connection nor the served
file, and leave no stream open. -/
theorem stats_calls_quiet (env : Env) (text : List Char) :
    sent_buffers (stats_calls env text) = [] ∧ accepted (stats_calls env text) = [] ∧
    fread_results (stats_calls env text) = [] ∧ opened_names (stats_calls env text) = [] ∧
    (stats_calls env text).count Event.close_socket = 0 ∧
    (stats_calls env text).count (Event.fclose Stream.f) = 0 ∧
    (∀ e ∈ stats_calls env text, uses_socket e = false) ∧
    (∀ o, left_open (stats_calls env text) o = o.erase Stream.statfd ∨
          left_open (stats_calls env text) o = o) ∧
    left_open (stats_calls env text) [] = [] := by
  unfold stats_calls
  split <;>
    simp [sent_buffers, accepted, fread_results, opened_names, uses_socket, left_open,
      List.count_cons]

theorem isspace_slash : isspace '/' = false := by decide

/-- The parse of `"GET /%s"` on a string of the form the format accepts: the token is
the longest run of characters that are not white space. -/
theorem sscanf_GET_accepts (w1 w2 tok rest : List Char)
    (h1 : ∀ c ∈ w1, isspace c = true) (h2 : ∀ c ∈ w2, isspace c = true)
    (hne : tok ≠ []) (ht : ∀ c ∈ tok, isspace c = false) :
    sscanf format_GET ("GET".toList ++ w1 ++ ['/'] ++ w2 ++ tok ++ rest) [] =
      (1, [tok ++ rest.takeWhile (fun c => !isspace c)]) := by
  have e1 : (w1 ++ '/' :: (w2 ++ (tok ++ rest))).dropWhile isspace =
      '/' :: (w2 ++ (tok ++ rest)) := by
    rw [List.dropWhile_append_of_pos h1, List.dropWhile_cons_of_neg (by simp [isspace_slash])]
  have e2 : (w2 ++ (tok ++ rest)).dropWhile isspace = tok ++ rest := by
    rw [List.dropWhile_append_of_pos h2]
    cases tok with
    | nil => exact absurd rfl hne
    | cons t ts =>
      rw [List.cons_append, List.dropWhile_cons_of_neg]
      simp [ht t (List.mem_cons_self _ _)]
  have e3 : (tok ++ rest).takeWhile (fun c => !isspace c) =
      tok ++ rest.takeWhile (fun c => !isspace c) := by
    rw [List.takeWhile_append_of_pos]
    intro c hc
    simp [ht c hc]
  have e4 : (tok ++ rest.takeWhile (fun c => !isspace c)).isEmpty = false := by
    cases tok with
    | nil => exact absurd rfl hne
    | cons t ts => rfl
  have e0 : "GET".toList ++ w1 ++ ['/'] ++ w2 ++ tok ++ rest =
      'G' :: 'E' :: 'T' :: (w1 ++ '/' :: (w2 ++ (tok ++ rest))) := by
    simp
  rw [e0]
  simp only [format_GET, sscanf, if_true]
  rw [e1]
  simp only [if_true]
  rw [e2, e3, e4]
  simp

/-- A successful parse of `"GET /%s"` comes from a string of the form the format
accepts. -/
theorem sscanf_GET_grammar (s : List Char) (h : 1 ≤ (sscanf format_GET s []).1) :
    scanf_grammar s := by
  simp only [format_GET, sscanf] at h
  split at h
  · simp [input_failure] at h
  · rename_i x xs
    split at h
    · rename_i hx
      split at h
      · simp [input_failure] at h
      · rename_i y ys
        split at h
        · rename_i hy
          split at h
          · simp [input_failure] at h
          · rename_i z zs
            split at h
            · rename_i hz
              split at h
              · simp [input_failure] at h
              · rename_i u us hzs
                split at h
                · rename_i hu
                  split at h
                  · simp [input_failure] at h
                  · rename_i htok
                    subst hx hy hz hu
                    refine ⟨zs.takeWhile isspace, us.takeWhile isspace,
                      (us.dropWhile isspace).takeWhile (fun c => !isspace c),
                      (us.dropWhile isspace).dropWhile (fun c => !isspace c), ?_, ?_, ?_, ?_, ?_⟩
                    · have hz1 : zs = zs.takeWhile isspace ++ '/' :: us := by
                        rw [← hzs, List.takeWhile_append_dropWhile]
                      have hu1 : us = us.takeWhile isspace ++
                          ((us.dropWhile isspace).takeWhile (fun c => !isspace c) ++
                           (us.dropWhile isspace).dropWhile (fun c => !isspace c)) := by
                        rw [List.takeWhile_append_dropWhile, List.takeWhile_append_dropWhile]
                      conv_lhs => rw [hz1, hu1]
                      simp
                    · intro c hc; exact List.mem_takeWhile_imp hc
                    · intro c hc; exact List.mem_takeWhile_imp hc
                    · intro he; exact htok (by simp [he])
                    · intro c hc
                      have := List.mem_takeWhile_imp hc
                      simpa using this
                · simp at h
            · simp at h
        · simp at h
    · simp at h

theorem send_rest_events (transport : Nat → Nat → Int) (response : List Char) (n : Int) :
    ∀ (fuel k : Nat) (sent : Int) (k1 : Nat) (evs : List Event),
      send_rest transport response n fuel k sent = some (k1, evs) →
      ∀ e ∈ evs, ∃ off len data ret, e = Event.send off len data ret := by
  intro fuel
  induction fuel with
  | zero =>
    intro k sent k1 evs h e he
    simp only [send_rest] at h
    split at h
    · cases h
    · cases h; simp at he
  | succ fuel ih =>
    intro k sent k1 evs h e he
    simp only [send_rest] at h
    split at h
    · split at h
      · cases h
      · rename_i k2 evs2 hrec
        cases h
        rcases List.mem_cons.1 he with rfl | he
        · exact ⟨_, _, _, _, rfl⟩
        · exact ih _ _ _ _ hrec e he
    · cases h; simp at he

theorem send_chunk_events (transport : Nat → Nat → Int) (fuel k : Nat)
    (response : List Char) (n : Int) (k1 : Nat) (evs : List Event)
    (h : send_chunk transport fuel k response n = some (k1, evs)) :
    ∀ e ∈ evs, ∃ off len data ret, e = Event.send off len data ret := by
  intro e he
  simp only [send_chunk] at h
  split at h
  · split at h
    · cases h
    · rename_i k2 evs2 hrec
      cases h
      rcases List.mem_cons.1 he with rfl | he
      · exact ⟨_, _, _, _, rfl⟩
      · exact send_rest_events _ _ _ _ _ _ _ _ hrec e he
  · cases h; simp at he

theorem transfer_events (transport : Nat → Nat → Int) (fuel : Nat) :
    ∀ (n : Nat) (rest : List Char) (k k1 : Nat) (evs : List Event),
      transfer transport fuel n rest k = some (k1, evs) →
      ∀ e ∈ evs, is_transfer e = true := by
  intro n
  induction n with
  | zero => intro rest k k1 evs h; simp [transfer] at h
  | succ n ih =>
    intro rest k k1 evs h e he
    simp only [transfer] at h
    split at h
    · cases h
    · rename_i k2 evs1 hchunk
      have hsend : ∀ x ∈ evs1, is_transfer x = true := by
        intro x hx
        obtain ⟨_, _, _, _, rfl⟩ := send_chunk_events _ _ _ _ _ _ _ hchunk x hx
        rfl
      split at h
      · split at h
        · cases h
        · rename_i k3 evs2 hrec
          cases h
          rcases List.mem_cons.1 he with rfl | he
          · rfl
          · rcases List.mem_append.1 he with he | he
            · exact hsend e he
            · exact ih _ _ _ _ hrec e he
      · cases h
        rcases List.mem_cons.1 he with rfl | he
        · rfl
        · exact hsend e he

/-- The calls of a transfer use the connection or read the file, nothing else. -/
theorem transfer_data (l : List Event) (h : ∀ e ∈ l, is_transfer e = true) :
    ∀ e ∈ l, (uses_socket e || is_transfer e) = true := by
  intro e he
  simp [h e he]

/-- The three ways a run of the handler ends. -/
theorem handle_connection_cases (fuel : Nat) (env : Env) (stats : List Char) (out : Outcome)
    (h : handle_connection fuel env stats = some out) :
    ((parsed env).1 < 1 ∧ out = Outcome.mk (bad_request_calls env) stats) ∨
    (1 ≤ (parsed env).1 ∧ env.fs (filename env) = none ∧
      out = finish env (filename env) env.st_size_stack stats (not_found_calls env)) ∨
    (1 ≤ (parsed env).1 ∧ ∃ file k body, env.fs (filename env) = some file ∧
      transfer env.transport fuel fuel file 5 = some (k, body) ∧
      out = finish env (filename env) (file.length : Nat) stats (serve_calls env file body)) := by
  simp only [handle_connection] at h
  split at h
  · rename_i hp
    cases h
    exact Or.inl ⟨hp, rfl⟩
  · rename_i hp
    have hp1 : 1 ≤ (parsed env).1 := by omega
    split at h
    · rename_i hfs
      cases h
      exact Or.inr (Or.inl ⟨hp1, hfs, rfl⟩)
    · rename_i file hfs
      split at h
      · cases h
      · rename_i k body hb
        cases h
        exact Or.inr (Or.inr ⟨hp1, file, k, body, hfs, hb, rfl⟩)

/-- The header writes: five `send` calls and the `fstat`. -/
theorem headers_facts (env : Env) (sz : Int) :
    sent_buffers (headers env sz) =
      ["HTTP/1.1 200 OK\n".toList,
       "Date: ".toList ++ (env.calendar ++ ['\n']),
       "Content-Length: ".toList ++ printf_d sz ++ ['\n'],
       "Connection: close\n".toList,
       "Content-Type: text/html\n\n".toList] ∧
    fread_results (headers env sz) = [] ∧ opened_names (headers env sz) = [] ∧
    (headers env sz).count Event.close_socket = 0 ∧
    (headers env sz).count (Event.fclose Stream.f) = 0 ∧
    Event.close_socket ∉ headers env sz ∧
    (∀ o, left_open (headers env sz) o = o) :=
  ⟨rfl, rfl, rfl, rfl, rfl, (by
    intro hm
    simp only [headers, List.mem_cons, List.mem_singleton, List.not_mem_nil, or_false] at hm
    rcases hm with hm | hm | hm | hm | hm | hm <;> cases hm), fun _ => rfl⟩

theorem before_close_append (l t : List Event) (h : Event.close_socket ∉ l) :
    before_close (l ++ Event.close_socket :: t) = l := by
  induction l with
  | nil => simp [before_close]
  | cons e l ih =>
    have he : e ≠ Event.close_socket := fun h1 => h (h1 ▸ List.mem_cons_self _ _)
    have hl : Event.close_socket ∉ l := fun h1 => h (List.mem_cons_of_mem _ h1)
    have := ih hl
    simp only [before_close] at this ⊢
    rw [List.cons_append, List.takeWhile_cons_of_pos (by simpa using he), this]

theorem after_close_append (l t : List Event) (h : Event.close_socket ∉ l) :
    after_close (l ++ Event.close_socket :: t) = t := by
  induction l with
  | nil => simp [after_close]
  | cons e l ih =>
    have he : e ≠ Event.close_socket := fun h1 => h (h1 ▸ List.mem_cons_self _ _)
    have hl : Event.close_socket ∉ l := fun h1 => h (List.mem_cons_of_mem _ h1)
    have := ih hl
    simp only [after_close] at this ⊢
    rw [List.cons_append, List.dropWhile_cons_of_pos (by simpa using he), this]

theorem not_mem_of_data (l : List Event)
    (h : ∀ e ∈ l, (uses_socket e || is_transfer e) = true) :
    Event.close_socket ∉ l ∧ Event.fclose Stream.f ∉ l := by
  constructor <;> intro hm <;> have := h _ hm <;> simp [uses_socket, is_transfer] at this

/-- The calls of the branch that serves a file, around the calls `body` of the
transfer. -/
theorem serve_calls_facts (env : Env) (file : List Char) (body : List Event)
    (hbody : ∀ e ∈ body, is_transfer e = true) :
    sent_buffers (serve_calls env file body) =
      ["HTTP/1.1 200 OK\n".toList,
       "Date: ".toList ++ (env.calendar ++ ['\n']),
       "Content-Length: ".toList ++ printf_d ((file.length : Nat) : Int) ++ ['\n'],
       "Connection: close\n".toList,
       "Content-Type: text/html\n\n".toList] ++ sent_buffers body ∧
    fread_results (serve_calls env file body) = fread_results body ∧
    opened_names (serve_calls env file body) = [filename env] ∧
    (serve_calls env file body).count (Event.fclose Stream.f) = 1 ∧
    Event.close_socket ∉ serve_calls env file body ∧
    Event.fclose Stream.f ∈ serve_calls env file body ∧
    left_open (serve_calls env file body) [] = [] := by
  obtain ⟨h1, h2, h3, h4, h5, h6, h7⟩ := headers_facts env ((file.length : Nat) : Int)
  obtain ⟨s1, s2, s3, s4, -, -⟩ := data_calls _ (start_data env)
  obtain ⟨b1, b2, b3, b4, -, -⟩ := data_calls _ (transfer_data _ hbody)
  have sn := not_mem_of_data _ (start_data env)
  have bn := not_mem_of_data _ (transfer_data _ hbody)
  have e1 : sent_buffers [Event.fopen Stream.f (filename env) "rb".toList true] = [] := rfl
  have e2 : sent_buffers
      [Event.fprintf Stream.stderr ("File: ".toList ++ filename env ++ ['\n'])] = [] := rfl
  have e3 : sent_buffers [Event.fclose Stream.f] = [] := rfl
  have f1 : fread_results [Event.fopen Stream.f (filename env) "rb".toList true] = [] := rfl
  have f2 : fread_results
      [Event.fprintf Stream.stderr ("File: ".toList ++ filename env ++ ['\n'])] = [] := rfl
  have f3 : fread_results [Event.fclose Stream.f] = [] := rfl
  have o1 : opened_names [Event.fopen Stream.f (filename env) "rb".toList true] =
      [filename env] := rfl
  have o2 : opened_names
      [Event.fprintf Stream.stderr ("File: ".toList ++ filename env ++ ['\n'])] = [] := rfl
  have o3 : opened_names [Event.fclose Stream.f] = [] := rfl
  have c1 : List.count (Event.fclose Stream.f)
      [Event.fopen Stream.f (filename env) "rb".toList true] = 0 := rfl
  have c2 : List.count (Event.fclose Stream.f)
      [Event.fprintf Stream.stderr ("File: ".toList ++ filename env ++ ['\n'])] = 0 := rfl
  have c3 : List.count (Event.fclose Stream.f) [Event.fclose Stream.f] = 1 := rfl
  have m1 : Event.close_socket ∉ [Event.fopen Stream.f (filename env) "rb".toList true] := by
    intro h; cases List.mem_singleton.1 h
  have m2 : Event.close_socket ∉
      [Event.fprintf Stream.stderr ("File: ".toList ++ filename env ++ ['\n'])] := by
    intro h; cases List.mem_singleton.1 h
  have m3 : Event.close_socket ∉ [Event.fclose Stream.f] := by
    intro h; cases List.mem_singleton.1 h
  have l1 : ∀ o, left_open [Event.fopen Stream.f (filename env) "rb".toList true] o =
      Stream.f :: o := fun _ => rfl
  have l2 : ∀ o, left_open
      [Event.fprintf Stream.stderr ("File: ".toList ++ filename env ++ ['\n'])] o = o :=
    fun _ => rfl
  have l3 : left_open [Event.fclose Stream.f] [Stream.f] = [] := rfl
  refine ⟨?_, ?_, ?_, ?_, ?_, ?_, ?_⟩
  · simp only [serve_calls, sent_buffers_append, sent_buffers_start, h1, e1, e2, e3,
      List.nil_append, List.append_nil]
  · simp only [serve_calls, fread_results_append, fread_results_start, h2, f1, f2, f3,
      List.nil_append, List.append_nil]
  · simp only [serve_calls, opened_names_append, s3, h3, b3, o1, o2, o3, List.nil_append,
      List.append_nil]
  · simp only [serve_calls, List.count_append, s2, h5, b2, c1, c2, c3]
  · simp only [serve_calls, List.mem_append, not_or]
    exact ⟨⟨⟨⟨⟨sn.1, m1⟩, h6⟩, m2⟩, bn.1⟩, m3⟩
  · simp only [serve_calls, List.mem_append, List.mem_singleton, or_true]
  · simp only [serve_calls, left_open_append, s4, h7, b4, l1, l2, l3]

/-- The calls of the branch that answers `404`. -/
theorem not_found_calls_facts (env : Env) :
    sent_buffers (not_found_calls env) = [not_found] ∧
    fread_results (not_found_calls env) = [] ∧
    opened_names (not_found_calls env) = [filename env] ∧
    (∀ name mode, Event.fopen Stream.f name mode true ∉ not_found_calls env) ∧
    Event.close_socket ∉ not_found_calls env ∧
    (not_found_calls env).count (Event.fclose Stream.f) = 0 ∧
    left_open (not_found_calls env) [] = [] := by
  obtain ⟨s1, s2, s3, s4, -, -⟩ := data_calls _ (start_data env)
  have sn := not_mem_of_data _ (start_data env)
  refine ⟨?_, ?_, ?_, ?_, ?_, ?_, ?_⟩
  · simp only [not_found_calls, sent_buffers_append, sent_buffers_start, List.nil_append]
    rfl
  · simp only [not_found_calls, fread_results_append, fread_results_start, List.nil_append]
    rfl
  · simp only [not_found_calls, opened_names_append, s3, List.nil_append]
    rfl
  · intro name mode hm
    simp only [not_found_calls, List.mem_append] at hm
    rcases hm with hm | hm
    · obtain ⟨r, hr⟩ := start_recv env _ hm
      cases hr
    · simp only [List.mem_cons, List.mem_singleton, List.not_mem_nil, or_false] at hm
      rcases hm with hm | hm
      · cases hm
      · cases hm
  · simp only [not_found_calls, List.mem_append, not_or]
    refine ⟨sn.1, ?_⟩
    intro hm
    simp only [List.mem_cons, List.mem_singleton, List.not_mem_nil, or_false] at hm
    rcases hm with hm | hm
    · cases hm
    · cases hm
  · simp only [not_found_calls, List.count_append, s2]
    rfl
  · simp only [not_found_calls, left_open_append, s4]
    rfl

/-- The block of lines 110-121 when the transport accepts the chunk whole: one `send`. -/
theorem send_chunk_whole (transport : Nat → Nat → Int)
    (hw : ∀ i len, transport i len = (len : Int)) (fuel k : Nat) (chunk : List Char) :
    send_chunk transport fuel k chunk (chunk.length : Nat) =
      if chunk = [] then some (k, [])
      else some (k + 1,
        [Event.send 0 (chunk.length : Nat) chunk (chunk.length : Nat)]) := by
  by_cases hc : chunk = []
  · subst hc
    simp [send_chunk]
  · have hpos : 0 < chunk.length := List.length_pos.2 hc
    have hs : slice chunk 0 (chunk.length : Nat) = chunk := by
      simp [slice]
    have hrest : send_rest transport chunk (chunk.length : Nat) fuel (k + 1)
        (chunk.length : Nat) = some (k + 1, []) := by
      cases fuel <;> simp [send_rest]
    simp only [send_chunk, if_neg hc]
    rw [if_pos (by omega), Int.toNat_ofNat, hw, hrest, hs]

theorem mem_dropLast_cons {α : Type} (a c : α) (l : List α) (h : c ∈ (a :: l).dropLast) :
    c = a ∨ c ∈ l.dropLast := by
  cases l with
  | nil => simp at h
  | cons b l =>
    rw [List.dropLast_cons₂] at h
    exact List.mem_cons.1 h

/-- The transfer loop when every `send` accepts its buffer whole: it ends after
`length / 1024 + 1` reads, the buffers sent are non-empty pieces of at most 1024 bytes,
all but the last of exactly 1024 bytes, and put end to end they are the file. -/
theorem transfer_whole (transport : Nat → Nat → Int)
    (hw : ∀ i len, transport i len = (len : Int)) (fuel : Nat) :
    ∀ (n : Nat) (rest : List Char) (k : Nat), rest.length / 1024 < n →
      ∃ k1 evs, transfer transport fuel n rest k = some (k1, evs) ∧
        (sent_buffers evs).flatten = rest ∧
        (∀ c ∈ sent_buffers evs, 0 < c.length ∧ c.length ≤ 1024) ∧
        (∀ c ∈ (sent_buffers evs).dropLast, c.length = 1024) ∧
        fread_results evs =
          List.replicate (rest.length / 1024) 1024 ++ [rest.length % 1024] ∧
        accepted evs = rest := by
  intro n
  induction n with
  | zero => intro rest k h; omega
  | succ n ih =>
    intro rest k hn
    have hchunk := send_chunk_whole transport hw fuel k (rest.take 1024)
    by_cases hfull : 1024 ≤ rest.length
    · have hlen : (rest.take 1024).length = 1024 := by
        rw [List.length_take]; omega
      have hne : rest.take 1024 ≠ [] := by
        intro h; rw [h] at hlen; simp at hlen
      rw [if_neg hne] at hchunk
      have hdrop : (rest.drop 1024).length / 1024 < n := by
        rw [List.length_drop]; omega
      obtain ⟨k1, evs, hrun, h1, h2, h3, h4, h5⟩ := ih (rest.drop 1024) (k + 1) hdrop
      refine ⟨k1, Event.fread (rest.take 1024).length ::
        Event.send 0 ((rest.take 1024).length : Nat) (rest.take 1024)
            ((rest.take 1024).length : Nat) :: evs, ?_, ?_, ?_, ?_, ?_, ?_⟩
      · simp only [transfer]
        rw [hchunk]
        simp only []
        rw [if_pos (by rw [hlen]; constructor <;> norm_num), hrun]
        rfl
      · simp only [sent_buffers, List.flatten_cons, h1,
          List.take_append_drop]
      · intro c hc
        simp only [sent_buffers, List.mem_cons] at hc
        rcases hc with rfl | hc
        · omega
        · exact h2 c hc
      · intro c hc
        simp only [sent_buffers] at hc
        rcases mem_dropLast_cons _ _ _ hc with rfl | hc
        · exact hlen
        · exact h3 c hc
      · simp only [fread_results, h4, hlen, List.length_drop]
        have e1 : rest.length / 1024 = (rest.length - 1024) / 1024 + 1 := by omega
        have e2 : rest.length % 1024 = (rest.length - 1024) % 1024 := by omega
        rw [e1, e2, List.replicate_succ, List.cons_append]
      · simp only [accepted, Int.toNat_ofNat, h5]
        rw [List.take_of_length_le (le_refl _), List.take_append_drop]
    · have htake : rest.take 1024 = rest := List.take_of_length_le (by omega)
      rw [htake] at hchunk
      have e1 : rest.length / 1024 = 0 := by omega
      have e2 : rest.length % 1024 = rest.length := by omega
      by_cases hempty : rest = []
      · subst hempty
        refine ⟨k, [Event.fread 0], ?_, rfl, ?_, ?_, rfl, rfl⟩
        · simp [transfer, send_chunk]
        · intro c hc; simp [sent_buffers] at hc
        · intro c hc; simp [sent_buffers] at hc
      · rw [if_neg hempty] at hchunk
        have hpos : 0 < rest.length := List.length_pos.2 hempty
        refine ⟨k + 1, [Event.fread rest.length,
          Event.send 0 (rest.length : Nat) rest (rest.length : Nat)], ?_, ?_, ?_, ?_, ?_, ?_⟩
        · simp only [transfer, htake]
          rw [hchunk]
          simp only []
          rw [if_neg (by omega)]
        · simp [sent_buffers]
        · intro c hc
          simp only [sent_buffers, List.mem_singleton] at hc
          subst hc
          omega
        · intro c hc; simp [sent_buffers] at hc
        · simp [fread_results, e1, e2]
        · simp [accepted]

/-- What closing the connection and recording the statistics add to the calls `t`. -/
theorem finish_facts (env : Env) (name : List Char) (sz : Int) (stats : List Char)
    (t : List Event) :
    (finish env name sz stats t).trace =
      t ++ Event.close_socket :: stats_calls env (stats_text env name sz) ∧
    sent_buffers (finish env name sz stats t).trace = sent_buffers t ∧
    fread_results (finish env name sz stats t).trace = fread_results t ∧
    accepted (finish env name sz stats t).trace = accepted t ∧
    opened_names (finish env name sz stats t).trace = opened_names t ∧
    (finish env name sz stats t).trace.count (Event.fclose Stream.f) =
      t.count (Event.fclose Stream.f) ∧
    (finish env name sz stats t).trace.count Event.close_socket =
      t.count Event.close_socket + 1 ∧
    (left_open t [] = [] → left_open (finish env name sz stats t).trace [] = []) := by
  obtain ⟨q1, q2, q3, q4, q5, q6, -, -, q9⟩ := stats_calls_quiet env (stats_text env name sz)
  have e : (finish env name sz stats t).trace =
      t ++ ([Event.close_socket] ++ stats_calls env (stats_text env name sz)) := rfl
  refine ⟨rfl, ?_, ?_, ?_, ?_, ?_, ?_, ?_⟩
  · rw [e, sent_buffers_append, sent_buffers_append, q1]
    simp [sent_buffers]
  · rw [e, fread_results_append, fread_results_append, q3]
    simp [fread_results]
  · rw [e, accepted_append, accepted_append, q2]
    simp [accepted]
  · rw [e, opened_names_append, opened_names_append, q4]
    simp [opened_names]
  · rw [e, List.count_append, List.count_append, q6]
    rfl
  · rw [e, List.count_append, List.count_append, q5]
    rfl
  · intro h
    rw [e, left_open_append, left_open_append, h]
    exact q9

/-- The run of the handler when the request parses, the file opens and the transfer
loop ends with the calls `body`. -/
theorem handle_connection_serves (fuel : Nat) (env : Env) (stats file : List Char)
    (k : Nat) (body : List Event) (hp : 1 ≤ (parsed env).1)
    (hfs : env.fs (filename env) = some file)
    (hb : transfer env.transport fuel fuel file 5 = some (k, body)) :
    handle_connection fuel env stats =
      some (finish env (filename env) ((file.length : Nat) : Int) stats
        (serve_calls env file body)) := by
  have hnot : ¬ (parsed env).1 < 1 := by omega
  simp only [handle_connection, if_neg hnot, hfs, hb]

/-- The conversion `"%d"` renders a size below 2^31 as its decimal digits. -/
theorem printf_d_small (n : Nat) (h : n < 2147483648) : printf_d (n : Int) = decimal n := by
  have e : int32 (n : Int) = (n : Int) := by
    unfold int32
    rw [Int.emod_eq_of_lt (by omega) (by omega)]
    omega
  simp only [printf_d, e]
  rw [if_neg (by omega), Int.toNat_ofNat]

/-- The header buffers of a run that serves a file through a transport that accepts
every buffer whole. -/
theorem header_buffers (env : Env) (file : List Char) (fuel : Nat) (stats : List Char)
    (hp : 1 ≤ (parsed env).1) (hfs : env.fs (filename env) = some file)
    (hw : ∀ i len, env.transport i len = (len : Int)) (hf : file.length / 1024 < fuel) :
    ∃ out, handle_connection fuel env stats = some out ∧
      (sent_buffers out.trace).take 5 =
        ["HTTP/1.1 200 OK\n".toList,
         "Date: ".toList ++ (env.calendar ++ ['\n']),
         "Content-Length: ".toList ++ printf_d ((file.length : Nat) : Int) ++ ['\n'],
         "Connection: close\n".toList,
         "Content-Type: text/html\n\n".toList] := by
  obtain ⟨k1, body, hb, -⟩ := transfer_whole env.transport hw fuel fuel file 5 hf
  obtain ⟨s1, -⟩ := serve_calls_facts env file body (transfer_events _ _ _ _ _ _ _ hb)
  obtain ⟨-, f2, -⟩ := finish_facts env (filename env) ((file.length : Nat) : Int) stats
    (serve_calls env file body)
  refine ⟨_, handle_connection_serves fuel env stats file k1 body hp hfs hb, ?_⟩
  rw [f2, s1]
  exact List.take_left' rfl

/-- The loop of lines 117-120 from the offset `s`, when each `send` accepts at least one
byte and at most what it is asked for: it ends within `n - s` iterations, every call
resumes at the offset reached, and the bytes accepted are the chunk from `s` on. -/
theorem send_rest_flushes (transport : Nat → Nat → Int) (response : List Char)
    (ht : ∀ i len, 1 ≤ len → 1 ≤ transport i len ∧ transport i len ≤ (len : Int)) :
    ∀ (fuel k s : Nat), s ≤ response.length → response.length - s ≤ fuel →
      ∃ k1 evs, send_rest transport response (response.length : Nat) fuel k (s : Nat)
          = some (k1, evs) ∧
        resumes (response.length : Nat) (s : Nat) evs = true ∧
        total_sent evs = (response.length : Int) - (s : Int) ∧
        accepted evs = response.drop s := by
  intro fuel
  induction fuel with
  | zero =>
    intro k s hs hf
    have hsn : s = response.length := by omega
    refine ⟨k, [], ?_, rfl, ?_, ?_⟩
    · simp only [send_rest]
      rw [if_neg (by omega)]
    · simp [total_sent, hsn]
    · simp [accepted, hsn]
  | succ fuel ih =>
    intro k s hs hf
    by_cases hlt : s < response.length
    · have hlen : ((response.length : Int) - (s : Int)).toNat = response.length - s :=
        Int.toNat_sub _ _
      obtain ⟨hr1, hr2⟩ := ht k (response.length - s) (by omega)
      obtain ⟨r, hr⟩ : ∃ r : Nat, transport k (response.length - s) = (r : Int) :=
        ⟨(transport k (response.length - s)).toNat, (Int.toNat_of_nonneg (by omega)).symm⟩
      rw [hr] at hr1 hr2
      have hr1n : 1 ≤ r := by omega
      have hr2n : r ≤ response.length - s := by omega
      obtain ⟨k1, evs, hrun, hres, htot, hacc⟩ := ih (k + 1) (s + r) (by omega) (by omega)
      refine ⟨k1, Event.send (s : Nat) ((response.length : Int) - (s : Int))
        (slice response (s : Nat) ((response.length : Int) - (s : Int))) (r : Nat) :: evs,
        ?_, ?_, ?_, ?_⟩
      · simp only [send_rest]
        rw [if_pos (by omega), hlen, hr]
        have e : ((s : Nat) : Int) + ((r : Nat) : Int) = ((s + r : Nat) : Int) := by
          push_cast; rfl
        rw [e, hrun]
      · simp only [resumes, decide_True, Bool.true_and]
        have e : ((s : Nat) : Int) + ((r : Nat) : Int) = ((s + r : Nat) : Int) := by
          push_cast; rfl
        rw [e]
        exact hres
      · simp only [total_sent, htot]
        push_cast
        ring
      · simp only [accepted, slice, hlen, Int.toNat_ofNat, hacc]
        rw [List.take_take, Nat.min_eq_left hr2n, ← List.drop_drop,
          List.take_append_drop]
    · have hsn : s = response.length := by omega
      refine ⟨k, [], ?_, rfl, ?_, ?_⟩
      · simp only [send_rest]
        rw [if_neg (by omega)]
      · simp [total_sent, hsn]
      · simp [accepted, hsn]

theorem process_exit_not_mem_stats_calls (env : Env) (text : List Char)
    (ho : env.stats_open = true) : Event.process_exit ∉ stats_calls env text := by
  intro hm
  simp only [stats_calls, ho, if_true, List.mem_cons, List.mem_singleton, List.not_mem_nil,
    or_false] at hm
  rcases hm with hm | hm | hm | hm | hm | hm <;> cases hm

/-- A run that can open the statistics file ends in `pthread_exit`, not in `exit`. -/
theorem process_exit_not_mem (fuel : Nat) (env : Env) (stats : List Char) (out : Outcome)
    (h : handle_connection fuel env stats = some out) (ho : env.stats_open = true) :
    Event.process_exit ∉ out.trace := by
  have hstart : Event.process_exit ∉ start env := by
    intro hm
    obtain ⟨r, hr⟩ := start_recv env _ hm
    cases hr
  rcases handle_connection_cases fuel env stats out h with
    ⟨-, rfl⟩ | ⟨-, -, rfl⟩ | ⟨-, file, k, body, -, hb, rfl⟩
  · intro hm
    simp only [bad_request_calls, List.mem_cons, List.mem_singleton, List.not_mem_nil,
      or_false] at hm
    rcases hm with hm | hm | hm | hm <;> cases hm
  · intro hm
    rw [(finish_facts _ _ _ _ _).1] at hm
    simp only [not_found_calls, List.mem_append, List.mem_cons, List.mem_singleton,
      List.not_mem_nil, or_false] at hm
    rcases hm with (hm | hm | hm) | hm | hm
    · exact hstart hm
    · cases hm
    · cases hm
    · cases hm
    · exact process_exit_not_mem_stats_calls _ _ ho hm
  · intro hm
    have hbody := transfer_events _ _ _ _ _ _ _ hb
    rw [(finish_facts _ _ _ _ _).1] at hm
    simp only [serve_calls, headers, List.mem_append, List.mem_cons, List.mem_singleton,
      List.not_mem_nil, or_false] at hm
    rcases hm with (((((hm | hm) | hm) | hm) | hm) | hm) | hm | hm
    · exact hstart hm
    · cases hm
    · rcases hm with hm | hm | hm | hm | hm | hm <;> cases hm
    · cases hm
    · have := hbody _ hm
      simp [is_transfer] at this
    · cases hm
    · cases hm
    · exact process_exit_not_mem_stats_calls _ _ ho hm

/-- The statistics file after a run that got past the parse and could open the file:
the record of this request. -/
theorem stats_of_run (fuel : Nat) (env : Env) (stats : List Char) (out : Outcome)
    (h : handle_connection fuel env stats = some out) (hp : 1 ≤ (parsed env).1)
    (ho : env.stats_open = true) :
    out.stats =
      filename env ++ ['\t'] ++ printf_d (st_size env) ++ ['\t'] ++ env.e_time_text := by
  rcases handle_connection_cases fuel env stats out h with
    ⟨hbad, -⟩ | ⟨-, hfs, rfl⟩ | ⟨-, file, k, body, hfs, -, rfl⟩
  · omega
  · simp only [finish, stats_after, ho, if_true, stats_text, st_size, hfs, List.nil_append]
  · simp only [finish, stats_after, ho, if_true, stats_text, st_size, hfs, List.nil_append]

/-- The statistics file after a run that could not open it: what it held before. -/
theorem stats_kept (fuel : Nat) (env : Env) (stats : List Char) (out : Outcome)
    (h : handle_connection fuel env stats = some out) (ho : env.stats_open = false) :
    out.stats = stats := by
  rcases handle_connection_cases fuel env stats out h with
    ⟨-, rfl⟩ | ⟨-, -, rfl⟩ | ⟨-, file, k, body, -, -, rfl⟩
  · rfl
  · simp [finish, stats_after, ho]
  · simp [finish, stats_after, ho]

/-- The C string at the start of a memory image that begins with characters other than
NUL. -/
theorem c_string_append (a b : List Char) (h : ∀ c ∈ a, c ≠ NUL) :
    c_string (a ++ b) = a ++ c_string b := by
  unfold c_string
  rw [List.takeWhile_append_of_pos]
  intro c hc
  simpa using h c hc

/-- The block of lines 110-121 under a transport in which each `send` accepts at least
one byte and at most what it is asked for: it returns, and the bytes accepted are the
bytes read. -/
theorem send_chunk_returns (transport : Nat → Nat → Int) (chunk : List Char) (fuel k : Nat)
    (ht : ∀ i len, 1 ≤ len → 1 ≤ transport i len ∧ transport i len ≤ (len : Int))
    (hf : chunk.length ≤ fuel) :
    ∃ k1 evs, send_chunk transport fuel k chunk (chunk.length : Nat) = some (k1, evs) ∧
      accepted evs = chunk := by
  by_cases hc : chunk = []
  · subst hc
    exact ⟨k, [], by simp [send_chunk], rfl⟩
  · have hn : 1 ≤ chunk.length := List.length_pos.2 hc
    obtain ⟨hr1, hr2⟩ := ht k chunk.length hn
    obtain ⟨r, hr⟩ : ∃ r : Nat, transport k chunk.length = (r : Int) :=
      ⟨(transport k chunk.length).toNat, (Int.toNat_of_nonneg (by omega)).symm⟩
    rw [hr] at hr1 hr2
    have hr2n : r ≤ chunk.length := by omega
    obtain ⟨k1, evs, hrun, -, -, hacc⟩ :=
      send_rest_flushes transport chunk ht fuel (k + 1) r hr2n (by omega)
    refine ⟨k1, Event.send 0 (chunk.length : Nat) (slice chunk 0 (chunk.length : Nat))
      (r : Nat) :: evs, ?_, ?_⟩
    · simp only [send_chunk]
      rw [if_pos (by omega), Int.toNat_ofNat, hr, hrun]
    · simp only [accepted, slice, Int.toNat_ofNat, hacc]
      simp only [Int.toNat_zero, List.drop_zero]
      rw [List.take_take, Nat.min_eq_left hr2n, List.take_append_drop]

/-- The transfer loop under such a transport: with a bound of 1024 iterations on each
partial-write loop and of more than `length / 1024` reads it returns, and the bytes
accepted, in order, are the file. -/
theorem transfer_returns (transport : Nat → Nat → Int)
    (ht : ∀ i len, 1 ≤ len → 1 ≤ transport i len ∧ transport i len ≤ (len : Int))
    (fuel : Nat) (hfuel : 1024 ≤ fuel) :
    ∀ (n : Nat) (rest : List Char) (k : Nat), rest.length / 1024 < n →
      ∃ k1 evs, transfer transport fuel n rest k = some (k1, evs) ∧ accepted evs = rest := by
  intro n
  induction n with
  | zero => intro rest k h; omega
  | succ n ih =>
    intro rest k hn
    have hle : (rest.take 1024).length ≤ fuel := by
      rw [List.length_take]; omega
    obtain ⟨k1, evs1, hchunk, hacc1⟩ :=
      send_chunk_returns transport (rest.take 1024) fuel k ht hle
    by_cases hfull : 1024 ≤ rest.length
    · have hlen : (rest.take 1024).length = 1024 := by
        rw [List.length_take]; omega
      have hdrop : (rest.drop 1024).length / 1024 < n := by
        rw [List.length_drop]; omega
      obtain ⟨k2, evs2, hrun, hacc2⟩ := ih (rest.drop 1024) k1 hdrop
      refine ⟨k2, Event.fread (rest.take 1024).length :: (evs1 ++ evs2), ?_, ?_⟩
      · simp only [transfer]
        rw [hchunk]
        simp only []
        rw [if_pos (by rw [hlen]; constructor <;> norm_num), hrun]
      · simp only [accepted]
        rw [accepted_append, hacc1, hacc2, List.take_append_drop]
    · have hlen : (rest.take 1024).length = rest.length := by
        rw [List.length_take]; omega
      refine ⟨k1, Event.fread (rest.take 1024).length :: evs1, ?_, ?_⟩
      · simp only [transfer]
        rw [hchunk]
        simp only []
        rw [if_neg (by rw [hlen]; omega)]
      · simp only [accepted]
        rw [hacc1]
        exact List.take_of_length_le (by omega)

/-- The handler returns on every request when each `send` accepts at least one byte and
at most what it is asked for, given a bound of 1024 iterations or more that also exceeds
the number of full arrays in the served file. -/
theorem handle_connection_returns (fuel : Nat) (env : Env) (stats : List Char)
    (ht : ∀ i len, 1 ≤ len → 1 ≤ env.transport i len ∧ env.transport i len ≤ (len : Int))
    (hfuel : 1024 ≤ fuel)
    (hfile : ∀ file, env.fs (filename env) = some file → file.length / 1024 < fuel) :
    ∃ out, handle_connection fuel env stats = some out := by
  by_cases hp : (parsed env).1 < 1
  · exact ⟨Outcome.mk (bad_request_calls env) stats,
      by simp only [handle_connection, if_pos hp]⟩
  · cases hfs : env.fs (filename env) with
    | none =>
      exact ⟨finish env (filename env) env.st_size_stack stats (not_found_calls env),
        by simp only [handle_connection, if_neg hp, hfs]⟩
    | some file =>
      obtain ⟨k1, body, hb, -⟩ :=
        transfer_returns env.transport ht fuel hfuel fuel file 5 (hfile file hfs)
      exact ⟨_, handle_connection_serves fuel env stats file k1 body (by omega) hfs hb⟩

/-! ## The claims -/

/-- C1, at a file of 2147483648 bytes: the handler returns, and the third buffer it
sends is `Content-Length: -2147483648`, while the decimal rendering of the size of the
file is `2147483648`: `"%d"` reads the 64-bit `st_size` as a 32-bit `int`. -/
theorem content_length_wraps_at_two_gib :
    env_two_gib.fs (filename env_two_gib) = some (List.replicate 2147483648 'a') ∧
    decimal (List.replicate 2147483648 'a').length = "2147483648".toList ∧
    ∃ out, handle_connection 2097153 env_two_gib [] = some out ∧
      (sent_buffers out.trace).take 5 =
        ["HTTP/1.1 200 OK\n".toList,
         "Date: Thu Jan  1 00:00:00 1970\n".toList,
         "Content-Length: -2147483648\n".toList,
         "Connection: close\n".toList,
         "Content-Type: text/html\n\n".toList] := by
  have hname : filename env_two_gib = "big.bin".toList := by decide
  have hfs : env_two_gib.fs (filename env_two_gib) = some (List.replicate 2147483648 'a') := by
    rw [hname]
    show big_root "big.bin".toList = _
    unfold big_root
    rw [if_pos rfl]
  have hlen : (List.replicate 2147483648 'a').length = 2147483648 := List.length_replicate _ _
  have hd : printf_d ((2147483648 : Nat) : Int) = "-2147483648".toList := by decide
  refine ⟨hfs, by rw [hlen]; decide, ?_⟩
  obtain ⟨out, hrun, hbuf⟩ := header_buffers env_two_gib (List.replicate 2147483648 'a')
    2097153 [] (by decide) hfs (fun _ _ => rfl) (by rw [hlen]; decide)
  rw [hlen, hd] at hbuf
  exact ⟨out, hrun, hbuf⟩

/-- C2: when the request parses, the file opens and every `send` accepts its buffer
whole, the handler returns (given a bound of more than `length / 1024` iterations), and
after the five header buffers (the last one ends with the blank line) it sends chunks
that, put end to end, are exactly the file; every chunk is non-empty and at most 1024
bytes, all chunks but the last are exactly 1024 bytes, and the reads return 1024 until
the first shorter one, which is the last. -/
theorem body_is_the_file (env : Env) (file : List Char) (fuel : Nat) (stats : List Char)
    (hp : 1 ≤ (parsed env).1) (hfs : env.fs (filename env) = some file)
    (hw : ∀ i len, env.transport i len = (len : Int)) (hf : file.length / 1024 < fuel) :
    ∃ out chunks, handle_connection fuel env stats = some out ∧
      sent_buffers out.trace =
        ["HTTP/1.1 200 OK\n".toList,
         "Date: ".toList ++ (env.calendar ++ ['\n']),
         "Content-Length: ".toList ++ printf_d ((file.length : Nat) : Int) ++ ['\n'],
         "Connection: close\n".toList,
         "Content-Type: text/html\n\n".toList] ++ chunks ∧
      chunks.flatten = file ∧
      (∀ c ∈ chunks, 0 < c.length ∧ c.length ≤ 1024) ∧
      (∀ c ∈ chunks.dropLast, c.length = 1024) ∧
      fread_results out.trace =
        List.replicate (file.length / 1024) 1024 ++ [file.length % 1024] := by
  obtain ⟨k1, body, hb, h1, h2, h3, h4, -⟩ := transfer_whole env.transport hw fuel fuel file 5 hf
  obtain ⟨s1, s2, -⟩ := serve_calls_facts env file body (transfer_events _ _ _ _ _ _ _ hb)
  obtain ⟨-, f2, f3, -⟩ := finish_facts env (filename env) ((file.length : Nat) : Int) stats
    (serve_calls env file body)
  refine ⟨_, sent_buffers body, handle_connection_serves fuel env stats file k1 body hp hfs hb,
    ?_, h1, h2, h3, ?_⟩
  · rw [f2, s1]
  · rw [f3, s2, h4]

/-- C2, on the request `GET /index.html` for the five-byte file `hello`: one chunk. -/
theorem body_is_the_file_witness :
    ∃ out chunks, handle_connection 1 env_index [] = some out ∧
      sent_buffers out.trace =
        ["HTTP/1.1 200 OK\n".toList,
         "Date: Thu Jan  1 00:00:00 1970\n".toList,
         "Content-Length: 5\n".toList,
         "Connection: close\n".toList,
         "Content-Type: text/html\n\n".toList] ++ chunks ∧
      chunks.flatten = "hello".toList :=
  (body_is_the_file env_index "hello".toList 1 [] (by decide) (by decide)
    (fun _ _ => rfl) (by decide)).imp
    (fun _ h => h.imp (fun _ h => ⟨h.1, h.2.1, h.2.2.1⟩))

/-- C3: when the request parses and `fopen` of the parsed path fails, the handler
returns (for every bound on its loops) and its only `send` carries exactly
`HTTP/1.1 404 Not Found (open)\n\n`; the call right after it is the `close` of the
connection, and nothing uses the connection afterwards. No header is sent and the file
is never read. When the transport accepts that buffer whole, these are the bytes on the
wire. -/
theorem not_found_reply (fuel : Nat) (env : Env) (stats : List Char)
    (hp : 1 ≤ (parsed env).1) (hfs : env.fs (filename env) = none) :
    ∃ out, handle_connection fuel env stats = some out ∧
      sent_buffers out.trace = ["HTTP/1.1 404 Not Found (open)\n\n".toList] ∧
      (∃ pre post, out.trace =
          pre ++ Event.send 0 31 "HTTP/1.1 404 Not Found (open)\n\n".toList
            (env.transport 0 31) :: Event.close_socket :: post ∧
        sent_buffers pre = [] ∧ ∀ e ∈ post, uses_socket e = false) ∧
      out.trace.count Event.close_socket = 1 ∧
      fread_results out.trace = [] ∧
      (env.transport 0 31 = 31 →
        accepted out.trace = "HTTP/1.1 404 Not Found (open)\n\n".toList) := by
  have hnot : ¬ (parsed env).1 < 1 := by omega
  have hrun : handle_connection fuel env stats =
      some (finish env (filename env) env.st_size_stack stats (not_found_calls env)) := by
    simp only [handle_connection, if_neg hnot, hfs]
  obtain ⟨q1, q2, q3, -, q5, -, q7, -, -⟩ :=
    stats_calls_quiet env (stats_text env (filename env) env.st_size_stack)
  obtain ⟨d1, -, -, -, -, -⟩ := data_calls _ (start_data env)
  refine ⟨_, hrun, ?_, ?_, ?_, ?_, ?_⟩
  · simp only [finish, not_found_calls, sent_buffers_append, sent_buffers_start, List.nil_append]
    simp [sent_buffers, q1, send_string, not_found]
  · refine ⟨start env ++ [Event.fopen Stream.f (filename env) "rb".toList false], _,
      ?_, ?_, q7⟩
    · simp [finish, not_found_calls, send_string, not_found]
    · simp only [sent_buffers_append, sent_buffers_start, List.nil_append]
      rfl
  · simp [finish, not_found_calls, List.count_append, List.count_cons, d1, q5, send_string]
  · simp only [finish, not_found_calls, fread_results_append, fread_results_start, List.nil_append]
    simp [fread_results, q3, send_string]
  · intro hall
    simp only [finish, not_found_calls, accepted_append, accepted_start, List.nil_append]
    simp [accepted, q2, send_string, not_found, hall]

/-- C3, on the request `GET /missing.txt`. -/
theorem not_found_reply_witness :
    1 ≤ (parsed env_missing).1 ∧ env_missing.fs (filename env_missing) = none ∧
    ∃ out, handle_connection 0 env_missing [] = some out ∧
      sent_buffers out.trace = ["HTTP/1.1 404 Not Found (open)\n\n".toList] :=
  ⟨by decide, by decide,
   (not_found_reply 0 env_missing [] (by decide) (by decide)).imp
     (fun _ h => ⟨h.1, h.2.1⟩)⟩

/-- C4: when the parse `sscanf(buffer, "GET /%s", filename)` fails, the handler returns
(for every bound on its loops) after exactly one `recv`, the diagnostic, one `close` of
the connection and `pthread_exit`: it sends nothing, opens no file, leaves the statistics
file as it was and never enters the drain loop. -/
theorem bad_request_closes_silently (fuel : Nat) (env : Env) (stats : List Char)
    (h : (parsed env).1 < 1) :
    ∃ out, handle_connection fuel env stats = some out ∧
      out.trace = [Event.recv (amt env),
        Event.fprintf Stream.stderr "Bad HTTP request\n".toList,
        Event.close_socket, Event.thread_exit] ∧
      sent_buffers out.trace = [] ∧ accepted out.trace = [] ∧
      out.trace.count Event.close_socket = 1 ∧
      (∀ s name mode ok, Event.fopen s name mode ok ∉ out.trace) ∧
      out.stats = stats := by
  refine ⟨Outcome.mk (bad_request_calls env) stats,
    by simp only [handle_connection, if_pos h], rfl, rfl, rfl, ?_, ?_, rfl⟩
  all_goals simp only [bad_request_calls]
  · simp [List.count_cons]
  · intro s name mode ok hmem
    simp at hmem

/-- C4, on the request `POST /index.html`. -/
theorem bad_request_closes_silently_witness :
    (parsed env_post).1 < 1 ∧
    ∃ out, handle_connection 0 env_post "old".toList = some out ∧
      sent_buffers out.trace = [] ∧ out.stats = "old".toList :=
  ⟨by decide,
   (bad_request_closes_silently 0 env_post "old".toList (by decide)).imp
     (fun _ h => ⟨h.1, h.2.2.1, h.2.2.2.2.2.2⟩)⟩

/-- C5, as the claim words it, fails: the first lines `GET/x HTTP/1.1`, `GET / HTTP/1.1`
and `GET /` (followed by a line break) do not match `GET /<token>`, yet `sscanf`
converts a token from each (`x`, `HTTP/1.1`, and `Host:` from the next line), and the
handler goes on to open that path and to answer `404`. -/
theorem exact_grammar_not_enforced :
    (¬ exact_grammar (first_line (buffer env_no_space)) ∧
      parsed env_no_space = (1, ["x".toList]) ∧
      (handle_connection 0 env_no_space []).map (fun o => opened_names o.trace)
        = some ["x".toList]) ∧
    (¬ exact_grammar (first_line (buffer env_empty_token)) ∧
      parsed env_empty_token = (1, ["HTTP/1.1".toList]) ∧
      (handle_connection 0 env_empty_token []).map (fun o => sent_buffers o.trace)
        = some [not_found]) ∧
    (¬ exact_grammar (first_line (buffer env_line_break)) ∧
      parsed env_line_break = (1, ["Host:".toList])) := by
  refine ⟨⟨?_, by decide, by decide⟩, ⟨?_, by decide, by decide⟩, ?_, by decide⟩
  · rintro ⟨tok, rest, h, -, -⟩
    have e : first_line (buffer env_no_space) =
        ['G', 'E', 'T', '/', 'x', ' ', 'H', 'T', 'T', 'P', '/', '1', '.', '1', '\r'] := by
      decide
    rw [e] at h
    simp at h
  · rintro ⟨tok, rest, h, hne, hs⟩
    have e : first_line (buffer env_empty_token) =
        ['G', 'E', 'T', ' ', '/', ' ', 'H', 'T', 'T', 'P', '/', '1', '.', '1', '\r'] := by
      decide
    rw [e] at h
    cases tok with
    | nil => exact hne rfl
    | cons t ts =>
      simp at h
      have := hs t (List.mem_cons_self _ _)
      rw [← h.1] at this
      exact absurd this (by decide)
  · rintro ⟨tok, rest, h, hne, hs⟩
    have e : first_line (buffer env_line_break) = ['G', 'E', 'T', ' ', '/', '\r'] := by
      decide
    rw [e] at h
    cases tok with
    | nil => exact hne rfl
    | cons t ts =>
      simp at h
      have := hs t (List.mem_cons_self _ _)
      rw [← h.1] at this
      exact absurd this (by decide)

/-- C5, amended: a buffer whose C string does not have the form `GET`, any run of white
space (also none), `/`, any run of white space (also none, line breaks included), then
a non-empty run of characters that are not white space, is treated as invalid: the
parse fails and the handler closes the connection without a reply. -/
theorem malformed_request_is_invalid (env : Env) (h : ¬ scanf_grammar (buffer env)) :
    (parsed env).1 < 1 ∧
    ∀ fuel stats, handle_connection fuel env stats =
      some (Outcome.mk (bad_request_calls env) stats) := by
  have hp : (parsed env).1 < 1 := by
    by_contra hc
    exact h (sscanf_GET_grammar _ (by unfold parsed at hc; omega))
  exact ⟨hp, fun fuel stats => by simp only [handle_connection, if_pos hp]⟩

/-- C5 amended, on the request `get /index.html`. -/
theorem malformed_request_is_invalid_witness :
    ¬ scanf_grammar (buffer env_lowercase) ∧ (parsed env_lowercase).1 < 1 ∧
    handle_connection 0 env_lowercase [] =
      some (Outcome.mk (bad_request_calls env_lowercase) []) :=
  have hg : ¬ scanf_grammar (buffer env_lowercase) := by
    rintro ⟨w1, w2, tok, rest, h, -⟩
    have e : (buffer env_lowercase).head? = some 'g' := by decide
    rw [h] at e
    simp at e
  ⟨hg, (malformed_request_is_invalid env_lowercase hg).1,
   (malformed_request_is_invalid env_lowercase hg).2 0 []⟩

/-- C6, as the claim words it, fails: in `GET /a\0b HTTP/1.1` the run `a\0b` holds no
white space and is followed by a space, but the C string that `sscanf` reads ends at
the NUL, and the handler opens `a`. -/
theorem nul_cuts_the_token :
    env_nul.request =
      some ("GET /".toList ++ ['a', NUL, 'b'] ++ ' ' :: "HTTP/1.1\r\n\r\n".toList) ∧
    ("GET /".toList ++ ['a', NUL, 'b'] ++ ' ' :: "HTTP/1.1\r\n\r\n".toList).length < 1024 ∧
    (∀ c ∈ ['a', NUL, 'b'], isspace c = false) ∧ isspace ' ' = true ∧
    parsed env_nul = (1, [['a']]) ∧
    (handle_connection 0 env_nul []).map (fun o => opened_names o.trace) = some [['a']] ∧
    ['a'] ≠ ['a', NUL, 'b'] := by
  refine ⟨rfl, by decide, by decide, by decide, by decide, by decide, by decide⟩

/-- C6, amended: when the received bytes (fewer than 1024) begin with `GET /`, then a
non-empty run `p` of characters that are neither white space nor NUL, then a white-space
character, the parse succeeds with the token `p`, whatever follows; every run of the
handler makes one `fopen` of the served file, with the name `p`, and the record it writes
to the statistics file starts with `p` and a tab. -/
theorem filename_is_the_token (env : Env) (p rest : List Char) (c : Char)
    (hreq : env.request = some ("GET /".toList ++ p ++ c :: rest))
    (hlen : ("GET /".toList ++ p ++ c :: rest).length < 1024)
    (hne : p ≠ []) (hp : ∀ x ∈ p, isspace x = false ∧ x ≠ NUL) (hc : isspace c = true) :
    parsed env = (1, [p]) ∧ filename env = p ∧
    ∀ fuel stats out, handle_connection fuel env stats = some out →
      opened_names out.trace = [p] ∧
      (env.stats_open = true →
        ∃ size, out.stats = p ++ ['\t'] ++ size ++ ['\t'] ++ env.e_time_text) := by
  have hrecv : received env = "GET /".toList ++ p ++ c :: rest := by
    unfold received
    rw [hreq]
    exact List.take_of_length_le (by omega)
  have hcn : c ≠ NUL := by
    intro e
    rw [e] at hc
    exact absurd hc (by decide)
  have hbuf : buffer env =
      "GET".toList ++ [' '] ++ ['/'] ++ [] ++ p ++ (c :: c_string (rest ++ env.buffer_rest)) := by
    unfold buffer
    rw [hrecv]
    have e1 : "GET /".toList ++ p ++ c :: rest ++ env.buffer_rest =
        ("GET /".toList ++ p ++ [c]) ++ (rest ++ env.buffer_rest) := by simp
    rw [e1, c_string_append]
    · simp
    · intro x hx
      simp only [List.mem_append, List.mem_singleton] at hx
      rcases hx with (hx | hx) | hx
      · have hx5 : x ∈ ['G', 'E', 'T', ' ', '/'] := hx
        simp only [List.mem_cons, List.mem_singleton, List.not_mem_nil, or_false] at hx5
        rcases hx5 with rfl | rfl | rfl | rfl | rfl <;> decide
      · exact (hp x hx).2
      · rw [hx]; exact hcn
  have hparsed : parsed env = (1, [p]) := by
    unfold parsed
    rw [hbuf, sscanf_GET_accepts [' '] [] p _ (by decide) (by simp) hne (fun x hx => (hp x hx).1)]
    simp [hc]
  have hname : filename env = p := by
    unfold filename
    rw [hparsed]
    rfl
  refine ⟨hparsed, hname, ?_⟩
  intro fuel stats out hrun
  have hstats : ∀ sz t, env.stats_open = true →
      (finish env (filename env) sz stats t).stats =
        p ++ ['\t'] ++ printf_d sz ++ ['\t'] ++ env.e_time_text := by
    intro sz t ho
    simp only [finish, stats_after, ho, if_true, stats_text, hname, List.nil_append]
  rcases handle_connection_cases fuel env stats out hrun with
    ⟨hbad, -⟩ | ⟨-, -, rfl⟩ | ⟨-, file, k, body, -, hb, rfl⟩
  · rw [hparsed] at hbad
    simp at hbad
  · obtain ⟨-, -, -, q4, -⟩ :=
      stats_calls_quiet env (stats_text env (filename env) env.st_size_stack)
    obtain ⟨-, -, n3, -⟩ := not_found_calls_facts env
    refine ⟨?_, fun ho => ⟨_, hstats _ _ ho⟩⟩
    have e : opened_names [Event.close_socket] = [] := rfl
    rw [show (finish env (filename env) env.st_size_stack stats (not_found_calls env)).trace =
      not_found_calls env ++ ([Event.close_socket] ++
        stats_calls env (stats_text env (filename env) env.st_size_stack)) from rfl,
      opened_names_append, opened_names_append, n3, q4, e, hname]
    rfl
  · obtain ⟨-, -, -, q4, -⟩ :=
      stats_calls_quiet env (stats_text env (filename env) ((file.length : Nat) : Int))
    obtain ⟨-, -, n3, -⟩ :=
      serve_calls_facts env file body (transfer_events _ _ _ _ _ _ _ hb)
    refine ⟨?_, fun ho => ⟨_, hstats _ _ ho⟩⟩
    have e : opened_names [Event.close_socket] = [] := rfl
    rw [show (finish env (filename env) ((file.length : Nat) : Int) stats
        (serve_calls env file body)).trace =
      serve_calls env file body ++ ([Event.close_socket] ++
        stats_calls env (stats_text env (filename env) ((file.length : Nat) : Int))) from rfl,
      opened_names_append, opened_names_append, n3, q4, e, hname]
    rfl

/-- C6 amended, on the request `GET /index.html HTTP/1.1`. -/
theorem filename_is_the_token_witness :
    parsed env_index = (1, ["index.html".toList]) ∧
    filename env_index = "index.html".toList ∧
    ∀ fuel stats out, handle_connection fuel env_index stats = some out →
      opened_names out.trace = ["index.html".toList] :=
  have h := filename_is_the_token env_index "index.html".toList "HTTP/1.1\r\n\r\n".toList ' '
    rfl (by decide) (by decide) (by decide) (by decide)
  ⟨h.1, h.2.1, fun fuel stats out ho => (h.2.2 fuel stats out ho).1⟩

/-- C7: for a chunk of `n >= 1` bytes (in the handler `n <= 1024`) and a transport in
which each `send` accepts at least one byte and at most what it is asked for, the block
of lines 110-121 returns within `n` iterations; each `send` is issued at the offset
reached by the bytes accepted so far, with the length `n` minus that offset; the return
values add up to `n`; and the bytes accepted, in order, are exactly the chunk. -/
theorem retry_loop_flushes_the_chunk (transport : Nat → Nat → Int) (chunk : List Char)
    (fuel k : Nat) (hn : 1 ≤ chunk.length)
    (ht : ∀ i len, 1 ≤ len → 1 ≤ transport i len ∧ transport i len ≤ (len : Int))
    (hf : chunk.length ≤ fuel) :
    ∃ k1 evs, send_chunk transport fuel k chunk (chunk.length : Nat) = some (k1, evs) ∧
      resumes (chunk.length : Nat) 0 evs = true ∧
      total_sent evs = (chunk.length : Nat) ∧
      accepted evs = chunk := by
  obtain ⟨hr1, hr2⟩ := ht k chunk.length hn
  obtain ⟨r, hr⟩ : ∃ r : Nat, transport k chunk.length = (r : Int) :=
    ⟨(transport k chunk.length).toNat, (Int.toNat_of_nonneg (by omega)).symm⟩
  rw [hr] at hr1 hr2
  have hr2n : r ≤ chunk.length := by omega
  obtain ⟨k1, evs, hrun, hres, htot, hacc⟩ :=
    send_rest_flushes transport chunk ht fuel (k + 1) r hr2n (by omega)
  refine ⟨k1, Event.send 0 (chunk.length : Nat) (slice chunk 0 (chunk.length : Nat)) (r : Nat)
    :: evs, ?_, ?_, ?_, ?_⟩
  · simp only [send_chunk]
    rw [if_pos (by omega), Int.toNat_ofNat, hr, hrun]
  · simp only [resumes, decide_True, Bool.true_and, sub_zero, zero_add]
    exact hres
  · simp only [total_sent, htot]
    ring
  · simp only [accepted, slice, Int.toNat_ofNat, hacc]
    simp only [Int.toNat_zero, List.drop_zero]
    rw [List.take_take, Nat.min_eq_left hr2n, List.take_append_drop]

/-- C7, on the chunk `hello` and a transport that accepts two bytes at a time: three
calls, at the offsets 0, 2 and 4. -/
theorem retry_loop_flushes_the_chunk_witness :
    ∃ k1 evs, send_chunk short_writes 5 0 "hello".toList 5 = some (k1, evs) ∧
      resumes 5 0 evs = true ∧ total_sent evs = 5 ∧ accepted evs = "hello".toList :=
  retry_loop_flushes_the_chunk short_writes "hello".toList 5 0 (by decide)
    (fun i len h => by unfold short_writes; split <;> omega) (by decide)

/-- C8, as the claim words it, fails: the request `GET /index.html` gets past the parse
and is answered, but `stats_thread.txt` cannot be opened, the process exits, and the
file still holds the record of an earlier request, not the record of this one. -/
theorem stats_file_kept_when_open_fails :
    1 ≤ (parsed env_stats_closed).1 ∧
    (handle_connection 1 env_stats_closed "a.html\t7\t0.0002".toList).map
        (fun o => (o.stats, o.trace.getLast?))
      = some ("a.html\t7\t0.0002".toList, some Event.process_exit) ∧
    "a.html\t7\t0.0002".toList ≠
      filename env_stats_closed ++ ['\t'] ++ decimal 5 ++ ['\t'] ++
        env_stats_closed.e_time_text := by
  refine ⟨by decide, by decide, by decide⟩

/-- C8, amended: for a request that gets past the parse (answered `200` or `404`) and a
run that can open `stats_thread.txt`, whatever the file held before, the file afterwards
holds exactly the parsed path, a tab, the size field, a tab and the elapsed seconds, and
nothing after them; on the `200` outcome with a file below 2^31 bytes the size field is
the decimal byte size of the served file. Hence after requests served one after another
by runs that can open the file, the file holds the record of the last one. When the
file cannot be opened, the run leaves it as it was. -/
theorem stats_record_replaces_the_file (fuel : Nat) (earlier : List Env) (env : Env)
    (stats : List Char) (hp : 1 ≤ (parsed env).1) :
    (env.stats_open = true →
      (∀ out, handle_connection fuel env stats = some out →
        out.stats =
          filename env ++ ['\t'] ++ printf_d (st_size env) ++ ['\t'] ++ env.e_time_text) ∧
      (∀ file, env.fs (filename env) = some file → file.length < 2147483648 →
        printf_d (st_size env) = decimal file.length) ∧
      ((∀ e ∈ earlier, e.stats_open = true) →
        ∀ final, serve_all fuel (earlier ++ [env]) stats = some final →
          final =
            filename env ++ ['\t'] ++ printf_d (st_size env) ++ ['\t'] ++ env.e_time_text)) ∧
    (env.stats_open = false →
      ∀ out, handle_connection fuel env stats = some out → out.stats = stats) := by
  refine ⟨fun ho => ⟨fun out h => stats_of_run fuel env stats out h hp ho, ?_, ?_⟩,
    fun ho out h => stats_kept fuel env stats out h ho⟩
  · intro file hfs hlt
    simp only [st_size, hfs]
    exact printf_d_small _ hlt
  · intro hall
    induction earlier generalizing stats with
    | nil =>
      intro final hfin
      simp only [List.nil_append, serve_all] at hfin
      split at hfin
      · cases hfin
      · rename_i out hout
        have hs := stats_of_run fuel env stats out hout hp ho
        split at hfin
        · cases hfin; exact hs
        · cases hfin; exact hs
    | cons e rest ih =>
      intro final hfin
      simp only [List.cons_append, serve_all] at hfin
      split at hfin
      · cases hfin
      · rename_i out hout
        have hne := process_exit_not_mem fuel e stats out hout
          (hall e (List.mem_cons_self _ _))
        rw [if_neg hne] at hfin
        exact ih out.stats (fun x hx => hall x (List.mem_cons_of_mem _ hx)) final hfin

/-- C8 amended, on `GET /missing.txt` followed by `GET /index.html`, starting from a file
that holds `old`: the file ends as `index.html<TAB>5<TAB>0.0001`. -/
theorem stats_record_replaces_the_file_witness :
    1 ≤ (parsed env_index).1 ∧ env_index.stats_open = true ∧
    serve_all 1 [env_missing, env_index] "old".toList = some "index.html\t5\t0.0001".toList ∧
    filename env_index ++ ['\t'] ++ printf_d (st_size env_index) ++ ['\t'] ++
      env_index.e_time_text = "index.html\t5\t0.0001".toList :=
  have hrun : serve_all 1 ([env_missing] ++ [env_index]) "old".toList =
      some "index.html\t5\t0.0001".toList := by decide
  ⟨by decide, rfl, hrun,
   (((stats_record_replaces_the_file 1 [env_missing] env_index "old".toList (by decide)).1
      rfl).2.2 (fun e he => by rw [List.mem_singleton.1 he]; rfl) _ hrun).symm⟩

/-- C10: every run that returns closes the connection exactly once and makes no `recv` or
`send` after that `close`, and leaves no stream open. When the file opens (`200`),
`fclose(f)` is called exactly once, before the connection is closed and after the one
`fopen` of the served file. When the parse fails or the file does not open (`404`), no `fopen`
of the served file succeeds and `fclose(f)` is never called. -/
theorem connection_closed_once (fuel : Nat) (env : Env) (stats : List Char) (out : Outcome)
    (h : handle_connection fuel env stats = some out) :
    out.trace.count Event.close_socket = 1 ∧
    (∀ e ∈ after_close out.trace, uses_socket e = false) ∧
    left_open out.trace [] = [] ∧
    (∀ file, 1 ≤ (parsed env).1 → env.fs (filename env) = some file →
      out.trace.count (Event.fclose Stream.f) = 1 ∧
      Event.fclose Stream.f ∈ before_close out.trace ∧
      opened_names (before_close out.trace) = [filename env]) ∧
    ((parsed env).1 < 1 ∨ env.fs (filename env) = none →
      (∀ name mode, Event.fopen Stream.f name mode true ∉ out.trace) ∧
      out.trace.count (Event.fclose Stream.f) = 0) := by
  rcases handle_connection_cases fuel env stats out h with
    ⟨hbad, rfl⟩ | ⟨hp, hfs, rfl⟩ | ⟨hp, file, k, body, hfs, hb, rfl⟩
  · refine ⟨rfl, ?_, rfl, ?_, ?_⟩
    · intro e he
      have e1 : after_close (Outcome.mk (bad_request_calls env) stats).trace =
          [Event.thread_exit] := rfl
      rw [e1] at he
      rw [List.mem_singleton.1 he]
      rfl
    · intro file hp
      omega
    · intro _
      refine ⟨?_, rfl⟩
      intro name mode hm
      simp only [bad_request_calls, List.mem_cons, List.mem_singleton, List.not_mem_nil,
        or_false] at hm
      rcases hm with hm | hm | hm | hm <;> cases hm
  · obtain ⟨f1, -, -, -, -, f6, f7, f8⟩ :=
      finish_facts env (filename env) env.st_size_stack stats (not_found_calls env)
    obtain ⟨-, -, -, n4, n5, n6, n7⟩ := not_found_calls_facts env
    obtain ⟨-, -, -, -, -, -, q7, -, -⟩ :=
      stats_calls_quiet env (stats_text env (filename env) env.st_size_stack)
    refine ⟨?_, ?_, f8 n7, ?_, ?_⟩
    · rw [f7, List.count_eq_zero.2 n5]
    · rw [f1, after_close_append _ _ n5]
      exact q7
    · intro file _ hfile
      rw [hfs] at hfile
      cases hfile
    · intro _
      refine ⟨?_, by rw [f6, n6]⟩
      intro name mode hm
      rw [f1] at hm
      rcases List.mem_append.1 hm with hm | hm
      · exact n4 name mode hm
      · rcases List.mem_cons.1 hm with hm | hm
        · cases hm
        · have := q7 _ hm
          revert hm
          unfold stats_calls
          split <;> intro hm <;>
            simp only [List.mem_cons, List.mem_singleton, List.not_mem_nil, or_false] at hm
          · rcases hm with hm | hm | hm | hm | hm | hm <;> cases hm
          · rcases hm with hm | hm | hm | hm <;> cases hm
  · have hbody := transfer_events _ _ _ _ _ _ _ hb
    obtain ⟨f1, -, -, -, -, f6, f7, f8⟩ :=
      finish_facts env (filename env) ((file.length : Nat) : Int) stats
        (serve_calls env file body)
    obtain ⟨-, -, s3, s4, s5, s6, s7⟩ := serve_calls_facts env file body hbody
    obtain ⟨-, -, -, -, -, -, q7, -, -⟩ :=
      stats_calls_quiet env (stats_text env (filename env) ((file.length : Nat) : Int))
    refine ⟨?_, ?_, f8 s7, ?_, ?_⟩
    · rw [f7, List.count_eq_zero.2 s5]
    · rw [f1, after_close_append _ _ s5]
      exact q7
    · intro file2 _ _
      refine ⟨by rw [f6, s4], ?_, ?_⟩
      · rw [f1, before_close_append _ _ s5]
        exact s6
      · rw [f1, before_close_append _ _ s5]
        exact s3
    · intro hor
      rcases hor with hlt | hnone
      · omega
      · rw [hfs] at hnone
        cases hnone

/-- C10, on the run of `GET /index.html`: the connection is closed once, the file is
closed once and before it. -/
theorem connection_closed_once_witness :
    handle_connection 1 env_index [] = some out_index ∧
    out_index.trace.count Event.close_socket = 1 ∧
    out_index.trace.count (Event.fclose Stream.f) = 1 ∧
    Event.fclose Stream.f ∈ before_close out_index.trace ∧
    left_open out_index.trace [] = [] :=
  have hrun : handle_connection 1 env_index [] = some out_index := by decide
  have h := connection_closed_once 1 env_index [] out_index hrun
  have h200 := h.2.2.2.1 "hello".toList (by decide) (by decide)
  ⟨hrun, h.1, h200.1, h200.2.1, h.2.2.1⟩

end ServerThread
